import Mathlib

/-!
Verification of the task-tracker program in src/task.py.

The program is a file-persisted project/task tracker.  We give a shallow
embedding of its state model and operations:

* machine state is the persisted JSON document, modelled as an optional
  `Json` value (the `none` case is a missing file); reading and writing the
  file are modelled at the level of parsed JSON values, so the textual
  json.loads/json.dumps round trip is the identity here;
* Python dictionaries are association lists with first-match lookup and
  in-place update (`dictGet`/`dictSet`, `jsonGet`/`jsonSet`); the dictionaries
  produced by the program always have pairwise distinct keys;
* fallible Python code (pydantic validation, assertions, exceptions raised
  by migration steps) is modelled with `Except String`; the string is the
  name of the exception the Python code raises;
* the pydantic models Task and Project are structures; constructing a model
  with keyword arguments is `Project.fromKwargs`, which fails when a field
  without a default is missing, exactly as pydantic does;
* the branch-name codec built on the external parse library is modelled by
  an explicit backtracking matcher (`scanSplits`) implementing the regular
  expression the library compiles for the format string of task.py line 19:
  a lazy nonempty group, a literal hyphen, the d field as an optionally
  signed alternation of a greedy decimal digit run and the base-prefixed
  0x/0b/0o integer forms with automatic base conversion, a literal slash
  and a lazy nonempty trailing group, anchored at both ends.
-/

namespace TaskApp

/-- Lifecycle states of a task (task.py lines 27-35). -/
inductive TaskStatus : Type where
  | incomplete
  | started
  | complete
deriving DecidableEq

/-- Serialized form of a status, its pydantic enum value. -/
def statusToString : TaskStatus → String
  | .incomplete => "incomplete"
  | .started => "started"
  | .complete => "complete"

/-- The Task model (task.py lines 38-41). -/
structure Task : Type where
  id : Int
  title : String
  status : TaskStatus
deriving DecidableEq

/-- The Project model (task.py lines 44-49).  The `tasks` field is a Python
dict from int to Task, modelled as an association list. -/
structure Project : Type where
  name : String
  project_abbv : String
  next_id : Int
  tasks : List (Int × Task)
  version : Int
deriving DecidableEq

/-- Python dict lookup (`d.get(k)`), first match wins. -/
def dictGet : List (Int × Task) → Int → Option Task
  | [], _ => none
  | (k, v) :: rest, key => if k = key then some v else dictGet rest key

/-- Python dict update (`d[k] = v`): replace the binding in place, or append. -/
def dictSet : List (Int × Task) → Int → Task → List (Int × Task)
  | [], key, v => [(key, v)]
  | (k, w) :: rest, key, v =>
    if k = key then (k, v) :: rest else (k, w) :: dictSet rest key v

/-- Untyped JSON values as produced by json.loads.  Arrays and floats never
occur in the documents of this program and are omitted. -/
inductive Json : Type where
  | null : Json
  | bool (b : Bool) : Json
  | int (n : Int) : Json
  | str (s : String) : Json
  | obj (fields : List (String × Json)) : Json

/-- Lookup in a raw JSON object (`raw.get(k)`). -/
def jsonGet : List (String × Json) → String → Option Json
  | [], _ => none
  | (k, v) :: rest, key => if k = key then some v else jsonGet rest key

/-- Update of a raw JSON object (`raw[k] = v`). -/
def jsonSet : List (String × Json) → String → Json → List (String × Json)
  | [], key, v => [(key, v)]
  | (k, w) :: rest, key, v =>
    if k = key then (k, v) :: rest else (k, w) :: jsonSet rest key v

/-- Decimal digit test, the character class of a digit run. -/
def isDigitChar (c : Char) : Bool := 48 ≤ c.toNat && c.toNat ≤ 57

/-- Numeric value of a decimal digit character. -/
def digitVal (c : Char) : Nat := c.toNat - 48

/-- Value of a decimal digit run, most significant digit first. -/
def digitsVal (ds : List Char) : Nat := ds.foldl (fun a c => 10 * a + digitVal c) 0

/-- Hexadecimal digit test, the character class after a 0x prefix. -/
def isHexChar (c : Char) : Bool :=
  isDigitChar c || (97 ≤ c.toNat && c.toNat ≤ 102) || (65 ≤ c.toNat && c.toNat ≤ 70)

/-- Binary digit test, the character class after a 0b prefix. -/
def isBinChar (c : Char) : Bool := c.toNat = 48 || c.toNat = 49

/-- Octal digit test, the character class after a 0o prefix. -/
def isOctChar (c : Char) : Bool := 48 ≤ c.toNat && c.toNat ≤ 55

/-- Numeric value of a hexadecimal digit character, either case. -/
def hexDigitVal (c : Char) : Nat :=
  if isDigitChar c then c.toNat - 48
  else if 97 ≤ c.toNat then c.toNat - 87
  else c.toNat - 55

/-- Value of a hexadecimal digit run, as int with base 16 computes it. -/
def hexVal (ds : List Char) : Nat := ds.foldl (fun a c => 16 * a + hexDigitVal c) 0

/-- Value of a binary digit run, as int with base 2 computes it. -/
def binVal (ds : List Char) : Nat := ds.foldl (fun a c => 2 * a + digitVal c) 0

/-- Value of an octal digit run, as int with base 8 computes it. -/
def octVal (ds : List Char) : Nat := ds.foldl (fun a c => 8 * a + digitVal c) 0

/-- Python `int(s)` on a dict key string: an optional minus sign followed by
a nonempty digit run.  Used by pydantic to coerce the string keys of the
`tasks` object back to integers. -/
def parseIntKey (s : String) : Except String Int :=
  match s.data with
  | [] => .error "ValidationError"
  | c :: rest =>
    if c = '-' then
      if rest ≠ [] ∧ rest.all isDigitChar then .ok (-(digitsVal rest : Int))
      else .error "ValidationError"
    else
      if (c :: rest).all isDigitChar then .ok (digitsVal (c :: rest))
      else .error "ValidationError"

/-- Pydantic parse of a TaskStatus from its enum value. -/
def parseStatus : Json → Except String TaskStatus
  | .str s =>
    if s = "incomplete" then .ok .incomplete
    else if s = "started" then .ok .started
    else if s = "complete" then .ok .complete
    else .error "ValidationError"
  | _ => .error "ValidationError"

/-- Pydantic parse of a Task: `id` and `title` are required, `status`
defaults to incomplete (task.py lines 38-41). -/
def parseTask (j : Json) : Except String Task :=
  match j with
  | .obj fields =>
    match jsonGet fields "id", jsonGet fields "title" with
    | some (.int i), some (.str ttl) =>
      match jsonGet fields "status" with
      | none => .ok { id := i, title := ttl, status := .incomplete }
      | some sj =>
        match parseStatus sj with
        | .ok st => .ok { id := i, title := ttl, status := st }
        | .error e => .error e
    | _, _ => .error "ValidationError"
  | _ => .error "ValidationError"

/-- Pydantic parse of the `tasks` dict: every key is coerced to int and every
value parsed as a Task. -/
def parseTasksFields : List (String × Json) → Except String (List (Int × Task))
  | [] => .ok []
  | (k, v) :: rest =>
    match parseIntKey k with
    | .error e => .error e
    | .ok key =>
      match parseTask v with
      | .error e => .error e
      | .ok tsk =>
        match parseTasksFields rest with
        | .error e => .error e
        | .ok acc => .ok ((key, tsk) :: acc)

/-- Pydantic parse of the remaining Project fields once the required
`version` field has been found: `name` and `project_abbv` are required,
`next_id` defaults to 0 and `tasks` to the empty dict (task.py lines 44-49). -/
def parseProjectFields (fields : List (String × Json)) (ver : Int) : Except String Project :=
  match jsonGet fields "name", jsonGet fields "project_abbv" with
  | some (.str nm), some (.str ab) =>
    match
      (match jsonGet fields "next_id" with
       | none => Except.ok (0 : Int)
       | some (.int n) => Except.ok n
       | some _ => Except.error "ValidationError"),
      (match jsonGet fields "tasks" with
       | none => Except.ok ([] : List (Int × Task))
       | some (.obj tf) => parseTasksFields tf
       | some _ => Except.error "ValidationError") with
    | .ok nid, .ok tks =>
      .ok { name := nm, project_abbv := ab, next_id := nid, tasks := tks, version := ver }
    | .error e, _ => .error e
    | _, .error e => .error e
  | _, _ => .error "ValidationError"

/-- Pydantic parse of a Project from a raw document.  `version` has no
default, so a document without it is rejected. -/
def parseProject (j : Json) : Except String Project :=
  match j with
  | .obj fields =>
    match jsonGet fields "version" with
    | some (.int ver) => parseProjectFields fields ver
    | _ => .error "ValidationError"
  | _ => .error "ValidationError"

/-- Character of a decimal digit, with bounded fuel so that evaluation is
structural; `natDigitsAux (n + 1) n` renders n in decimal. -/
def natDigitsAux : Nat → Nat → List Char
  | 0, _ => []
  | fuel + 1, n =>
    if n < 10 then [Nat.digitChar n]
    else natDigitsAux fuel (n / 10) ++ [Nat.digitChar (n % 10)]

/-- Decimal digit run of a natural number, as Python str(n) renders it. -/
def natDigits (n : Nat) : List Char := natDigitsAux (n + 1) n

/-- Python str(n) on an int: decimal digits with a leading minus sign when
negative; the rendering used by the d format spec of task.py line 19 and by
json.dumps on dict keys. -/
def intToDecimalChars (n : Int) : List Char :=
  if n < 0 then '-' :: natDigits n.natAbs else natDigits n.natAbs

/-- String form of an int, used for the keys of the serialized `tasks` map. -/
def intKeyString (n : Int) : String := String.mk (intToDecimalChars n)

/-- Serialization of a Task (pydantic .json()). -/
def taskJson (t : Task) : Json :=
  .obj [("id", .int t.id), ("title", .str t.title), ("status", .str (statusToString t.status))]

/-- Serialization of the `tasks` dict: int keys become strings. -/
def tasksJson (m : List (Int × Task)) : Json :=
  .obj (m.map (fun kv => (intKeyString kv.1, taskJson kv.2)))

/-- Serialization of a Project (pydantic .json()), field declaration order. -/
def projectJson (p : Project) : Json :=
  .obj [("name", .str p.name), ("project_abbv", .str p.project_abbv),
        ("next_id", .int p.next_id), ("tasks", tasksJson p.tasks),
        ("version", .int p.version)]

/-- Project.read (task.py lines 51-53): parse the persisted file directly.
A missing file raises the file-not-found error of `Path` / pydantic. -/
def Project.read (fs : Option Json) : Except String Project :=
  match fs with
  | none => .error "NotFound"
  | some doc => parseProject doc

/-- Project.write (task.py lines 55-57): overwrite the whole file with the
serialized project. -/
def Project.write (p : Project) (_fs : Option Json) : Option Json :=
  some (projectJson p)

/-- The project_context context manager (task.py lines 78-84): read, yield
to the body, and write back unless read_only.  If the body raises, the
generator is never resumed past the yield, so no write happens and the file
keeps its previous contents; the first component of the result is the file
afterwards, the second the outcome of the body. -/
def project_context {α : Type} (read_only : Bool)
    (body : Project → Except String (Project × α)) (fs : Option Json) :
    Option Json × Except String α :=
  match Project.read fs with
  | .error e => (fs, .error e)
  | .ok p =>
    match body p with
    | .error e => (fs, .error e)
    | .ok (p1, a) => (if read_only then fs else Project.write p1 fs, .ok a)

/-- A migration step: a function on the raw document that may raise
(task.py lines 105-106 and the loop body of migrate_project). -/
def Migration : Type := List (String × Json) → Except String (List (String × Json))

/-- The initial migration (task.py lines 105-106): only prints, so the raw
document is returned unchanged and the step never raises. -/
def initial_migration : Migration := fun raw_project => .ok raw_project

/-- The registered migration steps (task.py lines 109-111). -/
def MIGRATIONS : List Migration := [initial_migration]

/-- The loop of migrate_project (task.py lines 94-99): for each indexed step,
skip it when its index is at most the version read before the loop, otherwise
run it and set the version field to its index.  Returns the indices of the
steps that were applied together with the outcome; on a raising step the loop
stops at once. -/
def runMigrations : List (Nat × Migration) → Int → List (String × Json) →
    List Nat × Except String (List (String × Json))
  | [], _, doc => ([], .ok doc)
  | (idx, f) :: rest, version, doc =>
    if (idx : Int) ≤ version then runMigrations rest version doc
    else
      match f doc with
      | .error e => ([], .error e)
      | .ok doc1 =>
        match runMigrations rest version (jsonSet doc1 "version" (.int idx)) with
        | (trace, out) => (idx :: trace, out)

/-- migrate_project on the raw document (task.py lines 92-99): the version
defaults to -1 when the field is absent; a non-integer version makes the
comparison in the loop raise. -/
def migrateRaw (migrations : List Migration) (doc : List (String × Json)) :
    List Nat × Except String (List (String × Json)) :=
  match jsonGet doc "version" with
  | some (.int v) => runMigrations migrations.enum v doc
  | none => runMigrations migrations.enum (-1) doc
  | some _ => ([], .error "TypeError")

/-- migrate_project (task.py lines 87-102), parametrized by the registered
steps (the source closes over the global MIGRATIONS): read the file, run the
migration loop, and write the result back; the write is only reached when no
step raised, so on failure the file keeps its previous contents.  Returns the
file afterwards and the raised exception, if any. -/
def migrate_project (migrations : List Migration) (fs : Option Json) :
    Option Json × Option String :=
  match fs with
  | none => (none, some "FileNotFoundError")
  | some (.obj doc) =>
    match migrateRaw migrations doc with
    | (_, .ok doc1) => (some (.obj doc1), none)
    | (_, .error e) => (some (.obj doc), some e)
  | some j => (some j, some "TypeError")

/-- Modelled from the spec: the load operation of section 4.1 of spec.md,
which is absent from src/task.py.  Per the spec wording, load first runs the
raw document through SchemaMigrator, reports MigrationFailed when a step
raises, and only then parses the migrated document into the typed model.
Kept for comparison with the actual read path of project_context. -/
def loadSpec (fs : Option Json) : Except String Project :=
  match fs with
  | none => .error "NotFound"
  | some (.obj doc) =>
    match migrateRaw MIGRATIONS doc with
    | (_, .ok doc1) => parseProject (.obj doc1)
    | (_, .error _) => .error "MigrationFailed"
  | some _ => .error "ValidationError"

/-- Pydantic keyword construction of a Project: fields without defaults
(name, project_abbv, version) must be supplied, next_id defaults to 0 and
tasks to the empty dict (task.py lines 44-49). -/
def Project.fromKwargs (name : Option String) (project_abbv : Option String)
    (next_id : Option Int) (tasks : Option (List (Int × Task)))
    (version : Option Int) : Except String Project :=
  match name, project_abbv, version with
  | some nm, some ab, some v =>
    .ok { name := nm, project_abbv := ab, next_id := next_id.getD 0,
          tasks := tasks.getD [], version := v }
  | _, _, _ => .error "ValidationError"

/-- The init command (task.py lines 134-138): construct
Project(name=project_name) and write it.  Only the name is supplied. -/
def init (project_name : String) (fs : Option Json) :
    Option Json × Except String Unit :=
  match Project.fromKwargs (some project_name) none none none none with
  | .error e => (fs, .error e)
  | .ok p => (Project.write p fs, .ok ())

/-- The body of the add command (task.py lines 159-170): increment next_id,
build the Task with the new id and default status, assert that the id is
unoccupied, insert.  No check on the title is performed. -/
def add (title : String) (p : Project) : Except String (Project × Task) :=
  let p1 : Project := { p with next_id := p.next_id + 1 }
  let task : Task := { id := p1.next_id, title := title, status := .incomplete }
  match dictGet p1.tasks task.id with
  | some _ => .error "AssertionError"
  | none => .ok ({ p1 with tasks := dictSet p1.tasks task.id task }, task)

/-- A sequence of add commands; returns the final project and the ids
assigned, in order.  Stops at the first failure. -/
def addAll : List String → Project → Except String (Project × List Int)
  | [], p => .ok (p, [])
  | t :: rest, p =>
    match add t p with
    | .error e => .error e
    | .ok (p1, task) =>
      match addAll rest p1 with
      | .error e => .error e
      | .ok (p2, ids) => .ok (p2, task.id :: ids)

/-- Sign characters accepted before the digit run of a d format field. -/
def isSignChar (c : Char) : Bool := c = '-' || c = '+' || c = ' '

/-- Consume the optional sign in front of the digit run of the task_id
field, returning the sign value and the remaining input. -/
def stripSign : List Char → Int × List Char
  | [] => (1, [])
  | c :: rest =>
    if c = '-' then (-1, rest)
    else if c = '+' then (1, rest)
    else if c = ' ' then (1, rest)
    else (1, c :: rest)

/-- One alternative of the d field: a greedy nonempty run of the class P
must be followed by the literal slash of the pattern and a nonempty title;
on a full match the value of the run under the base conversion v, signed as
int_convert applies the stripped sign. -/
def runAlt (P : Char → Bool) (v : List Char → Nat) (sgn : Int) (s : List Char) : Option Int :=
  if s.takeWhile P = [] then none
  else
    match s.dropWhile P with
    | [] => none
    | r :: ts =>
      if r = '/' then
        (if ts = [] then none else some (sgn * (v (s.takeWhile P) : Int)))
      else none

/-- The base-prefixed alternatives of the d field: 0x or 0X followed by a
hexadecimal run, 0b or 0B followed by a binary run, 0o or 0O followed by an
octal run; int_convert detects the base from the prefix and converts
accordingly. -/
def matchTailBase (sgn : Int) : List Char → Option Int
  | c :: x :: rest =>
    if c = '0' then
      if x = 'x' ∨ x = 'X' then runAlt isHexChar hexVal sgn rest
      else if x = 'b' ∨ x = 'B' then runAlt isBinChar binVal sgn rest
      else if x = 'o' ∨ x = 'O' then runAlt isOctChar octVal sgn rest
      else none
    else none
  | _ => none

/-- After the optional sign, the alternation of the d field in the order
the library compiles it: a plain decimal digit run first, then the
base-prefixed 0x/0b/0o forms.  The alternatives are mutually exclusive on
full matches, so the first that matches is the regex result. -/
def matchTailCore (sgn : Int) (body : List Char) : Option Int :=
  match runAlt isDigitChar digitsVal sgn body with
  | some n => some n
  | none => matchTailBase sgn body

/-- Match the part of the branch pattern after the literal hyphen: the
task_id field (optional sign, then decimal or base-prefixed run), the
literal slash, the title. -/
def matchTail (cs : List Char) : Option Int :=
  matchTailCore (stripSign cs).1 (stripSign cs).2

/-- The backtracking matcher for the anchored branch pattern: the lazy
nonempty project_abbv group absorbs one character at a time; at each split
the literal hyphen and the rest of the pattern are tried, and the first
split whose tail matches wins, exactly as the compiled regular expression
of the parse library behaves on parse.parse. -/
def scanSplits : List Char → Option Int
  | [] => none
  | _ :: rest =>
    match rest with
    | [] => none
    | r :: tail =>
      if r = '-' then
        match matchTail tail with
        | some n => some n
        | none => scanSplits rest
      else scanSplits rest

/-- The decode direction of the codec (task.py lines 199-200):
parse.parse(BRANCH_FORMAT_STRING, branch) followed by the task_id lookup.
When the pattern does not match, parse.parse returns None and the
subscription raises; the spec names this failure BranchFormatError. -/
def decode (branch : String) : Except String Int :=
  match scanSplits branch.data with
  | some n => .ok n
  | none => .error "BranchFormatError"

/-- Python str.lower on one character, on the ASCII range that the program
manipulates. -/
def pyCharLower (c : Char) : Char :=
  match c with
  | 'A' => 'a' | 'B' => 'b' | 'C' => 'c' | 'D' => 'd' | 'E' => 'e'
  | 'F' => 'f' | 'G' => 'g' | 'H' => 'h' | 'I' => 'i' | 'J' => 'j'
  | 'K' => 'k' | 'L' => 'l' | 'M' => 'm' | 'N' => 'n' | 'O' => 'o'
  | 'P' => 'p' | 'Q' => 'q' | 'R' => 'r' | 'S' => 's' | 'T' => 't'
  | 'U' => 'u' | 'V' => 'v' | 'W' => 'w' | 'X' => 'x' | 'Y' => 'y'
  | 'Z' => 'z'
  | other => other

/-- task.title.lower().replace(" ", "-") of task.py line 182. -/
def branchSlug (title : String) : List Char :=
  (title.data.map pyCharLower).map (fun c => if c = ' ' then '-' else c)

/-- The characters of the formatted branch name: project_abbv, hyphen, the
decimal task id, slash, the slugged title (task.py lines 179-183). -/
def encodeChars (abbv : List Char) (id : Int) (slug : List Char) : List Char :=
  abbv ++ '-' :: (intToDecimalChars id ++ '/' :: slug)

/-- The encode direction of the codec: BRANCH_FORMAT_STRING.format applied
to the project abbreviation, the task id and the slugged title. -/
def encode (project_abbv : String) (task_id : Int) (task_title : String) : String :=
  String.mk (encodeChars project_abbv.data task_id (branchSlug task_title))

/-- The body of an id segment after the optional sign, as the d format
field accepts it: a nonempty decimal digit run, or a 0x/0X, 0b/0B or 0o/0O
prefix followed by a nonempty run of the matching digit class. -/
def isIdBody (body : List Char) : Bool :=
  ((!body.isEmpty) && body.all isDigitChar) ||
  (match body with
   | c :: x :: rest =>
     if c = '0' then
       ((x = 'x' || x = 'X') && (!rest.isEmpty) && rest.all isHexChar) ||
       ((x = 'b' || x = 'B') && (!rest.isEmpty) && rest.all isBinChar) ||
       ((x = 'o' || x = 'O') && (!rest.isEmpty) && rest.all isOctChar)
     else false
   | _ => false)

/-- An id segment of the branch pattern as the d format field accepts it:
an optional sign followed by a decimal or base-prefixed integer body. -/
def isIdSegment (seg : List Char) : Bool :=
  match seg with
  | [] => false
  | c :: rest => if isSignChar c then isIdBody rest else isIdBody (c :: rest)

/-- A branch name matches the pattern of task.py line 19 when it splits as
abbreviation, hyphen, id segment (optional sign, then a decimal or
base-prefixed integer body), slash, nonempty title, with a nonempty
abbreviation. -/
def matchesBranchPattern (s : String) : Prop :=
  ∃ a seg t : List Char,
    s.data = a ++ '-' :: (seg ++ '/' :: t) ∧ a ≠ [] ∧ isIdSegment seg = true ∧ t ≠ []

/-- Project.get_task (task.py lines 63-69). -/
def get_task (p : Project) (task_id : Int) : Except String Task :=
  match dictGet p.tasks task_id with
  | none => .error "ValueError"
  | some t => .ok t

/-- Project.update_task_status (task.py lines 71-75): fetch the task and
overwrite its status field in place. -/
def update_task_status (p : Project) (task_id : Int) (status : TaskStatus) :
    Except String (Project × Task) :=
  match get_task p task_id with
  | .error e => .error e
  | .ok t =>
    .ok ({ p with tasks := dictSet p.tasks task_id { t with status := status } },
         { t with status := status })

/-! ### Association-list lemmas -/

lemma dictGet_dictSet_self (m : List (Int × Task)) (k : Int) (v : Task) :
    dictGet (dictSet m k v) k = some v := by
  induction m with
  | nil => simp [dictGet, dictSet]
  | cons kv rest ih =>
    obtain ⟨k', w⟩ := kv
    by_cases h : k' = k
    · subst h; simp [dictGet, dictSet]
    · simp [dictGet, dictSet, h, ih]

lemma dictGet_dictSet_ne (m : List (Int × Task)) (k j : Int) (v : Task) (hne : j ≠ k) :
    dictGet (dictSet m k v) j = dictGet m j := by
  have hkj : ¬ k = j := fun h => hne h.symm
  induction m with
  | nil => simp [dictGet, dictSet, hkj]
  | cons kv rest ih =>
    obtain ⟨k', w⟩ := kv
    by_cases h : k' = k
    · subst h
      simp [dictGet, dictSet, hkj]
    · simp [dictGet, dictSet, h, ih]

lemma jsonGet_jsonSet_self (m : List (String × Json)) (k : String) (v : Json) :
    jsonGet (jsonSet m k v) k = some v := by
  induction m with
  | nil => simp [jsonGet, jsonSet]
  | cons kv rest ih =>
    obtain ⟨k', w⟩ := kv
    by_cases h : k' = k
    · subst h; simp [jsonGet, jsonSet]
    · simp [jsonGet, jsonSet, h, ih]

/-! ### Decimal digit lemmas -/

lemma digitChar_isDigit : ∀ d, d < 10 → isDigitChar (Nat.digitChar d) = true := by decide

lemma digitVal_digitChar : ∀ d, d < 10 → digitVal (Nat.digitChar d) = d := by decide

lemma digitsVal_concat (xs : List Char) (c : Char) :
    digitsVal (xs ++ [c]) = 10 * digitsVal xs + digitVal c := by
  simp [digitsVal, List.foldl_append]

lemma digitsVal_singleton (c : Char) : digitsVal [c] = digitVal c := by
  simp [digitsVal]

lemma natDigitsAux_spec : ∀ fuel n, n < fuel →
    natDigitsAux fuel n ≠ [] ∧ (∀ c ∈ natDigitsAux fuel n, isDigitChar c = true) ∧
      digitsVal (natDigitsAux fuel n) = n := by
  intro fuel
  induction fuel with
  | zero => intro n h; omega
  | succ fuel ih =>
    intro n h
    by_cases h10 : n < 10
    · refine ⟨by simp [natDigitsAux, h10], ?_, ?_⟩
      · intro c hc
        simp [natDigitsAux, h10] at hc
        subst hc
        exact digitChar_isDigit n h10
      · simp [natDigitsAux, h10, digitsVal_singleton, digitVal_digitChar n h10]
    · have hdiv : n / 10 < fuel := by
        have : n / 10 < n := Nat.div_lt_self (by omega) (by omega)
        omega
      obtain ⟨h1, h2, h3⟩ := ih (n / 10) hdiv
      have hmod : n % 10 < 10 := Nat.mod_lt _ (by omega)
      refine ⟨by simp [natDigitsAux, h10], ?_, ?_⟩
      · intro c hc
        simp only [natDigitsAux, if_neg h10] at hc
        rcases List.mem_append.1 hc with h' | h'
        · exact h2 c h'
        · simp at h'
          subst h'
          exact digitChar_isDigit _ hmod
      · simp only [natDigitsAux, if_neg h10]
        rw [digitsVal_concat, h3, digitVal_digitChar _ hmod]
        omega

lemma natDigits_ne_nil (n : Nat) : natDigits n ≠ [] :=
  (natDigitsAux_spec (n + 1) n (by omega)).1

lemma natDigits_all_digit (n : Nat) : ∀ c ∈ natDigits n, isDigitChar c = true :=
  (natDigitsAux_spec (n + 1) n (by omega)).2.1

lemma digitsVal_natDigits (n : Nat) : digitsVal (natDigits n) = n :=
  (natDigitsAux_spec (n + 1) n (by omega)).2.2

/-! ### takeWhile and dropWhile over a class run -/

lemma takeWhile_all_append (P : Char → Bool) (ds : List Char) (r : Char) (t : List Char)
    (hds : ∀ c ∈ ds, P c = true) (hr : P r = false) :
    (ds ++ r :: t).takeWhile P = ds := by
  induction ds with
  | nil => simp [List.takeWhile_cons, hr]
  | cons c cs ih =>
    have hc := hds c (by simp)
    simp [List.takeWhile_cons, hc, ih (fun x hx => hds x (by simp [hx]))]

lemma dropWhile_all_append (P : Char → Bool) (ds : List Char) (r : Char) (t : List Char)
    (hds : ∀ c ∈ ds, P c = true) (hr : P r = false) :
    (ds ++ r :: t).dropWhile P = r :: t := by
  induction ds with
  | nil => simp [List.dropWhile_cons, hr]
  | cons c cs ih =>
    have hc := hds c (by simp)
    simp [List.dropWhile_cons, hc, ih (fun x hx => hds x (by simp [hx]))]

lemma dropWhile_sep_head (P : Char → Bool) (hdash : P '-' = false) :
    ∀ (m t : List Char), '/' ∉ m →
    ∀ r ts, (m ++ '-' :: t).dropWhile P = r :: ts → r ≠ '/' := by
  intro m
  induction m with
  | nil =>
    intro t _ r ts h
    rw [List.nil_append, List.dropWhile_cons, if_neg (by simp [hdash])] at h
    obtain ⟨h1, h2⟩ := List.cons.inj h
    subst h1
    decide
  | cons c cs ih =>
    intro t hm r ts h
    by_cases hc : P c = true
    · rw [List.cons_append, List.dropWhile_cons, if_pos (by simp [hc])] at h
      exact ih t (fun hmem => hm (by simp [hmem])) r ts h
    · rw [List.cons_append, List.dropWhile_cons, if_neg (by simp [hc])] at h
      obtain ⟨h1, h2⟩ := List.cons.inj h
      subst h1
      intro hcontra
      subst hcontra
      exact hm (by simp)

/-! ### The task_id field matcher -/

lemma runAlt_none (P : Char → Bool) (v : List Char → Nat) (sgn : Int) (s : List Char)
    (h : ∀ r ts, s.dropWhile P = r :: ts → r ≠ '/') :
    runAlt P v sgn s = none := by
  unfold runAlt
  by_cases hds : s.takeWhile P = []
  · simp [hds]
  · rw [if_neg hds]
    cases hdw : s.dropWhile P with
    | nil => simp
    | cons r ts => simp [h r ts hdw]

lemma runAlt_ok (P : Char → Bool) (v : List Char → Nat) (sgn : Int) (ds t : List Char)
    (hsl : P '/' = false) (h1 : ds ≠ []) (h2 : ∀ c ∈ ds, P c = true) (h3 : t ≠ []) :
    runAlt P v sgn (ds ++ '/' :: t) = some (sgn * (v ds : Int)) := by
  unfold runAlt
  rw [takeWhile_all_append P ds '/' t h2 hsl, dropWhile_all_append P ds '/' t h2 hsl]
  simp [h1, h3]

lemma runAlt_some_decomp (P : Char → Bool) (v : List Char → Nat) (sgn : Int)
    (s : List Char) (n : Int) (h : runAlt P v sgn s = some n) :
    ∃ ds t, s = ds ++ '/' :: t ∧ ds ≠ [] ∧ (∀ c ∈ ds, P c = true) ∧ t ≠ [] := by
  unfold runAlt at h
  by_cases hds : s.takeWhile P = []
  · simp [hds] at h
  · rw [if_neg hds] at h
    cases hdw : s.dropWhile P with
    | nil => rw [hdw] at h; simp at h
    | cons r ts =>
      rw [hdw] at h
      by_cases hr : r = '/'
      · subst hr
        by_cases hts : ts = []
        · simp [hts] at h
        · refine ⟨s.takeWhile P, ts, ?_, hds, ?_, hts⟩
          · conv_lhs => rw [← List.takeWhile_append_dropWhile (p := P) (l := s)]
            rw [hdw]
          · intro c hc
            exact List.mem_takeWhile_imp hc
      · simp [hr] at h

lemma matchTailCore_eq (sgn : Int) (body : List Char) :
    matchTailCore sgn body =
      (match runAlt isDigitChar digitsVal sgn body with
       | some n => some n
       | none => matchTailBase sgn body) := rfl

lemma matchTailBase_cons_cons (sgn : Int) (c x : Char) (rest : List Char) :
    matchTailBase sgn (c :: x :: rest) =
      (if c = '0' then
        if x = 'x' ∨ x = 'X' then runAlt isHexChar hexVal sgn rest
        else if x = 'b' ∨ x = 'B' then runAlt isBinChar binVal sgn rest
        else if x = 'o' ∨ x = 'O' then runAlt isOctChar octVal sgn rest
        else none
      else none) := rfl

lemma matchTailBase_inner_none (sgn : Int) : ∀ (m u : List Char), '/' ∉ m →
    matchTailBase sgn (m ++ '-' :: u) = none := by
  intro m u hm
  cases m with
  | nil =>
    cases u with
    | nil => rfl
    | cons x u' =>
      rw [List.nil_append, matchTailBase_cons_cons, if_neg (by decide)]
  | cons c m' =>
    cases m' with
    | nil =>
      show matchTailBase sgn (c :: '-' :: u) = none
      rw [matchTailBase_cons_cons]
      by_cases hc0 : c = '0'
      · subst hc0
        rw [if_pos rfl, if_neg (by decide), if_neg (by decide), if_neg (by decide)]
      · rw [if_neg hc0]
    | cons x m'' =>
      have hm'' : '/' ∉ m'' := fun h => hm (by simp [h])
      show matchTailBase sgn (c :: x :: (m'' ++ '-' :: u)) = none
      rw [matchTailBase_cons_cons]
      by_cases hc0 : c = '0'
      · subst hc0
        rw [if_pos rfl]
        by_cases hx1 : x = 'x' ∨ x = 'X'
        · rw [if_pos hx1]
          exact runAlt_none _ _ _ _ (dropWhile_sep_head isHexChar (by decide) m'' u hm'')
        · rw [if_neg hx1]
          by_cases hx2 : x = 'b' ∨ x = 'B'
          · rw [if_pos hx2]
            exact runAlt_none _ _ _ _ (dropWhile_sep_head isBinChar (by decide) m'' u hm'')
          · rw [if_neg hx2]
            by_cases hx3 : x = 'o' ∨ x = 'O'
            · rw [if_pos hx3]
              exact runAlt_none _ _ _ _ (dropWhile_sep_head isOctChar (by decide) m'' u hm'')
            · rw [if_neg hx3]
      · rw [if_neg hc0]

lemma matchTailCore_inner_none (sgn : Int) (m u : List Char) (hm : '/' ∉ m) :
    matchTailCore sgn (m ++ '-' :: u) = none := by
  have h1 : runAlt isDigitChar digitsVal sgn (m ++ '-' :: u) = none :=
    runAlt_none _ _ _ _ (dropWhile_sep_head isDigitChar (by decide) m u hm)
  rw [matchTailCore_eq, h1]
  exact matchTailBase_inner_none sgn m u hm

lemma matchTailCore_ok (sgn : Int) (ds t : List Char) (h1 : ds ≠ [])
    (h2 : ∀ c ∈ ds, isDigitChar c = true) (h3 : t ≠ []) :
    matchTailCore sgn (ds ++ '/' :: t) = some (sgn * (digitsVal ds : Int)) := by
  rw [matchTailCore_eq, runAlt_ok isDigitChar digitsVal sgn ds t (by decide) h1 h2 h3]

lemma digit_ne_dash (c : Char) (h : isDigitChar c = true) : c ≠ '-' := by
  intro he; subst he; exact absurd h (by decide)

lemma digit_ne_plus (c : Char) (h : isDigitChar c = true) : c ≠ '+' := by
  intro he; subst he; exact absurd h (by decide)

lemma digit_ne_space (c : Char) (h : isDigitChar c = true) : c ≠ ' ' := by
  intro he; subst he; exact absurd h (by decide)

lemma sign_false_of_digit (c : Char) (h : isDigitChar c = true) : isSignChar c = false := by
  simp [isSignChar, digit_ne_dash c h, digit_ne_plus c h, digit_ne_space c h]

lemma stripSign_digits (ds t : List Char) (h1 : ds ≠ [])
    (h2 : ∀ c ∈ ds, isDigitChar c = true) :
    stripSign (ds ++ '/' :: t) = (1, ds ++ '/' :: t) := by
  cases ds with
  | nil => exact absurd rfl h1
  | cons c cs =>
    have hc := h2 c (by simp)
    simp [stripSign, digit_ne_dash c hc, digit_ne_plus c hc, digit_ne_space c hc]

/-! ### Id segment bodies -/

lemma isIdBody_cons_cons (c x : Char) (rest : List Char) :
    isIdBody (c :: x :: rest) =
      (((!(c :: x :: rest).isEmpty) && (c :: x :: rest).all isDigitChar) ||
       (if c = '0' then
          ((x = 'x' || x = 'X') && (!rest.isEmpty) && rest.all isHexChar) ||
          ((x = 'b' || x = 'B') && (!rest.isEmpty) && rest.all isBinChar) ||
          ((x = 'o' || x = 'O') && (!rest.isEmpty) && rest.all isOctChar)
        else false)) := rfl

lemma isIdBody_ne_nil (body : List Char) (hb : isIdBody body = true) : body ≠ [] := by
  intro h
  subst h
  simp [isIdBody] at hb

lemma isIdBody_digits (ds : List Char) (h1 : ds ≠ [])
    (h2 : ∀ c ∈ ds, isDigitChar c = true) : isIdBody ds = true := by
  unfold isIdBody
  rw [Bool.or_eq_true]
  left
  rw [Bool.and_eq_true, List.all_eq_true]
  refine ⟨?_, h2⟩
  cases ds with
  | nil => exact absurd rfl h1
  | cons a as => rfl

lemma isIdBody_base (x : Char) (hs : List Char) (hne : hs ≠ [])
    (hx : ((x = 'x' ∨ x = 'X') ∧ ∀ c ∈ hs, isHexChar c = true) ∨
          ((x = 'b' ∨ x = 'B') ∧ ∀ c ∈ hs, isBinChar c = true) ∨
          ((x = 'o' ∨ x = 'O') ∧ ∀ c ∈ hs, isOctChar c = true)) :
    isIdBody ('0' :: x :: hs) = true := by
  rw [isIdBody_cons_cons, if_pos rfl]
  rw [Bool.or_eq_true]
  right
  obtain ⟨a, as, rfl⟩ : ∃ a as, hs = a :: as := by
    cases hs with
    | nil => exact absurd rfl hne
    | cons a as => exact ⟨a, as, rfl⟩
  rcases hx with ⟨hx, hall⟩ | ⟨hx, hall⟩ | ⟨hx, hall⟩
  · rw [Bool.or_eq_true]
    left
    rw [Bool.or_eq_true]
    left
    rw [Bool.and_eq_true, Bool.and_eq_true, List.all_eq_true]
    refine ⟨⟨?_, rfl⟩, hall⟩
    rcases hx with h | h <;> subst h <;> decide
  · rw [Bool.or_eq_true]
    left
    rw [Bool.or_eq_true]
    right
    rw [Bool.and_eq_true, Bool.and_eq_true, List.all_eq_true]
    refine ⟨⟨?_, rfl⟩, hall⟩
    rcases hx with h | h <;> subst h <;> decide
  · rw [Bool.or_eq_true]
    right
    rw [Bool.and_eq_true, Bool.and_eq_true, List.all_eq_true]
    refine ⟨⟨?_, rfl⟩, hall⟩
    rcases hx with h | h <;> subst h <;> decide

lemma isIdBody_elim (body : List Char) (hb : isIdBody body = true) :
    (body ≠ [] ∧ ∀ c ∈ body, isDigitChar c = true) ∨
    (∃ x hs, body = '0' :: x :: hs ∧ hs ≠ [] ∧
      (((x = 'x' ∨ x = 'X') ∧ ∀ c ∈ hs, isHexChar c = true) ∨
       ((x = 'b' ∨ x = 'B') ∧ ∀ c ∈ hs, isBinChar c = true) ∨
       ((x = 'o' ∨ x = 'O') ∧ ∀ c ∈ hs, isOctChar c = true))) := by
  cases body with
  | nil => exact absurd hb (by decide)
  | cons c body' =>
    cases body' with
    | nil =>
      left
      have heq : isIdBody [c] =
          (((!([c] : List Char).isEmpty) && ([c] : List Char).all isDigitChar) || false) := rfl
      rw [heq, Bool.or_eq_true] at hb
      rcases hb with h | h
      · rw [Bool.and_eq_true, List.all_eq_true] at h
        exact ⟨by simp, h.2⟩
      · exact absurd h (by simp)
    | cons x hs =>
      rw [isIdBody_cons_cons, Bool.or_eq_true] at hb
      rcases hb with h | h
      · left
        rw [Bool.and_eq_true, List.all_eq_true] at h
        exact ⟨by simp, h.2⟩
      · right
        by_cases hc : c = '0'
        · subst hc
          rw [if_pos rfl] at h
          refine ⟨x, hs, rfl, ?_, ?_⟩
          · intro hnil
            subst hnil
            simp at h
          · rw [Bool.or_eq_true] at h
            rcases h with h1 | h1
            · rw [Bool.or_eq_true] at h1
              rcases h1 with h2 | h2
              · left
                rw [Bool.and_eq_true, Bool.and_eq_true, List.all_eq_true] at h2
                exact ⟨by simpa using h2.1.1, h2.2⟩
              · right; left
                rw [Bool.and_eq_true, Bool.and_eq_true, List.all_eq_true] at h2
                exact ⟨by simpa using h2.1.1, h2.2⟩
            · right; right
              rw [Bool.and_eq_true, Bool.and_eq_true, List.all_eq_true] at h1
              exact ⟨by simpa using h1.1.1, h1.2⟩
        · rw [if_neg hc] at h
          simp at h

lemma isIdBody_head_digit (c : Char) (rest : List Char)
    (h : isIdBody (c :: rest) = true) : isDigitChar c = true := by
  rcases isIdBody_elim _ h with ⟨-, hall⟩ | ⟨x, hs, heq, -, -⟩
  · exact hall c (by simp)
  · obtain ⟨h1, -⟩ := List.cons.inj heq
    subst h1
    decide

lemma matchTailCore_body_some (sgn : Int) (body t : List Char)
    (hb : isIdBody body = true) (ht : t ≠ []) :
    ∃ n, matchTailCore sgn (body ++ '/' :: t) = some n := by
  rcases isIdBody_elim body hb with ⟨hne, hall⟩ | ⟨x, hs, hbody, hne, hcls⟩
  · exact ⟨sgn * (digitsVal body : Int), matchTailCore_ok sgn body t hne hall ht⟩
  · subst hbody
    have hxfacts : isDigitChar x = false ∧ x ≠ '/' := by
      rcases hcls with ⟨hx, -⟩ | ⟨hx, -⟩ | ⟨hx, -⟩ <;> rcases hx with h | h <;> subst h <;>
        exact ⟨by decide, by decide⟩
    have halt1 : runAlt isDigitChar digitsVal sgn (('0' :: x :: hs) ++ '/' :: t) = none := by
      apply runAlt_none
      intro r ts hdw
      rw [List.cons_append, List.cons_append, List.dropWhile_cons,
          if_pos (by decide), List.dropWhile_cons, if_neg (by simp [hxfacts.1])] at hdw
      obtain ⟨h1, -⟩ := List.cons.inj hdw
      subst h1
      exact hxfacts.2
    rw [matchTailCore_eq, halt1]
    show ∃ n, matchTailBase sgn ('0' :: x :: (hs ++ '/' :: t)) = some n
    rw [matchTailBase_cons_cons, if_pos rfl]
    rcases hcls with ⟨hx, hall⟩ | ⟨hx, hall⟩ | ⟨hx, hall⟩
    · rw [if_pos hx]
      exact ⟨sgn * (hexVal hs : Int),
        runAlt_ok isHexChar hexVal sgn hs t (by decide) hne hall ht⟩
    · have hnx1 : ¬(x = 'x' ∨ x = 'X') := by
        rcases hx with h | h <;> subst h <;> decide
      rw [if_neg hnx1, if_pos hx]
      exact ⟨sgn * (binVal hs : Int),
        runAlt_ok isBinChar binVal sgn hs t (by decide) hne hall ht⟩
    · have hnx1 : ¬(x = 'x' ∨ x = 'X') := by
        rcases hx with h | h <;> subst h <;> decide
      have hnx2 : ¬(x = 'b' ∨ x = 'B') := by
        rcases hx with h | h <;> subst h <;> decide
      rw [if_neg hnx1, if_neg hnx2, if_pos hx]
      exact ⟨sgn * (octVal hs : Int),
        runAlt_ok isOctChar octVal sgn hs t (by decide) hne hall ht⟩

lemma matchTailCore_some_decomp (sgn : Int) (body : List Char) (n : Int)
    (h : matchTailCore sgn body = some n) :
    ∃ bd t, body = bd ++ '/' :: t ∧ isIdBody bd = true ∧ t ≠ [] := by
  rw [matchTailCore_eq] at h
  cases halt1 : runAlt isDigitChar digitsVal sgn body with
  | some m =>
    obtain ⟨ds, t, hb, hne, hall, ht⟩ := runAlt_some_decomp _ _ _ _ _ halt1
    exact ⟨ds, t, hb, isIdBody_digits ds hne hall, ht⟩
  | none =>
    rw [halt1] at h
    have h' : matchTailBase sgn body = some n := h
    cases body with
    | nil => exact absurd h' (by simp [matchTailBase])
    | cons c body' =>
      cases body' with
      | nil => exact absurd h' (by simp [matchTailBase])
      | cons x rest =>
        rw [matchTailBase_cons_cons] at h'
        by_cases hc : c = '0'
        · subst hc
          rw [if_pos rfl] at h'
          by_cases hx1 : x = 'x' ∨ x = 'X'
          · rw [if_pos hx1] at h'
            obtain ⟨hsd, t, hb, hne, hall, ht⟩ := runAlt_some_decomp _ _ _ _ _ h'
            exact ⟨'0' :: x :: hsd, t, by simp [hb],
              isIdBody_base x hsd hne (Or.inl ⟨hx1, hall⟩), ht⟩
          · rw [if_neg hx1] at h'
            by_cases hx2 : x = 'b' ∨ x = 'B'
            · rw [if_pos hx2] at h'
              obtain ⟨hsd, t, hb, hne, hall, ht⟩ := runAlt_some_decomp _ _ _ _ _ h'
              exact ⟨'0' :: x :: hsd, t, by simp [hb],
                isIdBody_base x hsd hne (Or.inr (Or.inl ⟨hx2, hall⟩)), ht⟩
            · rw [if_neg hx2] at h'
              by_cases hx3 : x = 'o' ∨ x = 'O'
              · rw [if_pos hx3] at h'
                obtain ⟨hsd, t, hb, hne, hall, ht⟩ := runAlt_some_decomp _ _ _ _ _ h'
                exact ⟨'0' :: x :: hsd, t, by simp [hb],
                  isIdBody_base x hsd hne (Or.inr (Or.inr ⟨hx3, hall⟩)), ht⟩
              · rw [if_neg hx3] at h'
                exact absurd h' (by simp)
        · rw [if_neg hc] at h'
          exact absurd h' (by simp)

lemma stripSign_not_sign (c : Char) (l : List Char) (h : isSignChar c = false) :
    stripSign (c :: l) = (1, c :: l) := by
  have h1 : c ≠ '-' := by intro hh; subst hh; simp [isSignChar] at h
  have h2 : c ≠ '+' := by intro hh; subst hh; simp [isSignChar] at h
  have h3 : c ≠ ' ' := by intro hh; subst hh; simp [isSignChar] at h
  simp [stripSign, h1, h2, h3]

lemma matchTail_digits (ds t : List Char) (h1 : ds ≠ [])
    (h2 : ∀ c ∈ ds, isDigitChar c = true) (h3 : t ≠ []) :
    matchTail (ds ++ '/' :: t) = some ((digitsVal ds : Int)) := by
  unfold matchTail
  rw [stripSign_digits ds t h1 h2]
  simpa using matchTailCore_ok 1 ds t h1 h2 h3

lemma matchTail_seg_some (seg t : List Char) (hseg : isIdSegment seg = true) (ht : t ≠ []) :
    ∃ n, matchTail (seg ++ '/' :: t) = some n := by
  cases seg with
  | nil => simp [isIdSegment] at hseg
  | cons c rest =>
    have hsegeq : isIdSegment (c :: rest) =
        (if isSignChar c then isIdBody rest else isIdBody (c :: rest)) := rfl
    rw [hsegeq] at hseg
    by_cases hs : isSignChar c = true
    · rw [if_pos hs] at hseg
      have hcases : (c = '-' ∨ c = '+') ∨ c = ' ' := by
        simpa [isSignChar] using hs
      rcases hcases with (hc | hc) | hc <;> subst hc
      · obtain ⟨n, hn⟩ := matchTailCore_body_some (-1) rest t hseg ht
        refine ⟨n, ?_⟩
        show matchTail ('-' :: (rest ++ '/' :: t)) = some n
        unfold matchTail
        rw [show stripSign ('-' :: (rest ++ '/' :: t)) = (-1, rest ++ '/' :: t) from rfl]
        exact hn
      · obtain ⟨n, hn⟩ := matchTailCore_body_some 1 rest t hseg ht
        refine ⟨n, ?_⟩
        show matchTail ('+' :: (rest ++ '/' :: t)) = some n
        unfold matchTail
        rw [show stripSign ('+' :: (rest ++ '/' :: t)) = (1, rest ++ '/' :: t) from rfl]
        exact hn
      · obtain ⟨n, hn⟩ := matchTailCore_body_some 1 rest t hseg ht
        refine ⟨n, ?_⟩
        show matchTail (' ' :: (rest ++ '/' :: t)) = some n
        unfold matchTail
        rw [show stripSign (' ' :: (rest ++ '/' :: t)) = (1, rest ++ '/' :: t) from rfl]
        exact hn
    · have hs' : isSignChar c = false := by simpa using hs
      rw [if_neg hs] at hseg
      obtain ⟨n, hn⟩ := matchTailCore_body_some 1 (c :: rest) t hseg ht
      refine ⟨n, ?_⟩
      show matchTail (c :: (rest ++ '/' :: t)) = some n
      unfold matchTail
      rw [stripSign_not_sign c (rest ++ '/' :: t) hs']
      exact hn

lemma matchTail_inner_none (m u : List Char) (hm : m ≠ []) (hs : '/' ∉ m) :
    matchTail (m ++ '-' :: u) = none := by
  cases m with
  | nil => exact absurd rfl hm
  | cons c m' =>
    have hm' : '/' ∉ m' := fun h => hs (by simp [h])
    have hc : c ≠ '/' := fun h => hs (by simp [h])
    show matchTail (c :: (m' ++ '-' :: u)) = none
    unfold matchTail
    by_cases h1 : c = '-'
    · subst h1
      rw [show stripSign ('-' :: (m' ++ '-' :: u)) = (-1, m' ++ '-' :: u) from rfl]
      exact matchTailCore_inner_none (-1) m' u hm'
    · by_cases h2 : c = '+'
      · subst h2
        rw [show stripSign ('+' :: (m' ++ '-' :: u)) = (1, m' ++ '-' :: u) from rfl]
        exact matchTailCore_inner_none 1 m' u hm'
      · by_cases h3 : c = ' '
        · subst h3
          rw [show stripSign (' ' :: (m' ++ '-' :: u)) = (1, m' ++ '-' :: u) from rfl]
          exact matchTailCore_inner_none 1 m' u hm'
        · rw [show stripSign (c :: (m' ++ '-' :: u)) = (1, c :: (m' ++ '-' :: u)) by
            simp [stripSign, h1, h2, h3]]
          exact matchTailCore_inner_none 1 (c :: m') u (by simp [hm', Ne.symm hc])

lemma matchTail_some_decomp (cs : List Char) (n : Int) (h : matchTail cs = some n) :
    ∃ seg t, cs = seg ++ '/' :: t ∧ isIdSegment seg = true ∧ t ≠ [] := by
  unfold matchTail at h
  cases cs with
  | nil => exact Option.noConfusion h
  | cons c rest =>
    by_cases h1 : c = '-'
    · subst h1
      rw [show stripSign ('-' :: rest) = (-1, rest) from rfl] at h
      have h' : matchTailCore (-1) rest = some n := h
      obtain ⟨bd, t, hb, hbody, ht⟩ := matchTailCore_some_decomp _ _ _ h'
      refine ⟨'-' :: bd, t, by simp [hb], ?_, ht⟩
      show (if isSignChar '-' then isIdBody bd else isIdBody ('-' :: bd)) = true
      rw [if_pos (by decide)]
      exact hbody
    · by_cases h2 : c = '+'
      · subst h2
        rw [show stripSign ('+' :: rest) = (1, rest) from rfl] at h
        have h' : matchTailCore 1 rest = some n := h
        obtain ⟨bd, t, hb, hbody, ht⟩ := matchTailCore_some_decomp _ _ _ h'
        refine ⟨'+' :: bd, t, by simp [hb], ?_, ht⟩
        show (if isSignChar '+' then isIdBody bd else isIdBody ('+' :: bd)) = true
        rw [if_pos (by decide)]
        exact hbody
      · by_cases h3 : c = ' '
        · subst h3
          rw [show stripSign (' ' :: rest) = (1, rest) from rfl] at h
          have h' : matchTailCore 1 rest = some n := h
          obtain ⟨bd, t, hb, hbody, ht⟩ := matchTailCore_some_decomp _ _ _ h'
          refine ⟨' ' :: bd, t, by simp [hb], ?_, ht⟩
          show (if isSignChar ' ' then isIdBody bd else isIdBody (' ' :: bd)) = true
          rw [if_pos (by decide)]
          exact hbody
        · rw [show stripSign (c :: rest) = (1, c :: rest) by
            simp [stripSign, h1, h2, h3]] at h
          have h' : matchTailCore 1 (c :: rest) = some n := h
          obtain ⟨bd, t, hb, hbody, ht⟩ := matchTailCore_some_decomp _ _ _ h'
          refine ⟨bd, t, hb, ?_, ht⟩
          cases bd with
          | nil => exact absurd rfl (isIdBody_ne_nil [] hbody)
          | cons d bd' =>
            have hd := isIdBody_head_digit d bd' hbody
            have hns : ¬ (isSignChar d = true) := by
              simp [sign_false_of_digit d hd]
            show (if isSignChar d then isIdBody bd' else isIdBody (d :: bd')) = true
            rw [if_neg hns]
            exact hbody

/-! ### The split scanner -/

lemma scanSplits_cons_cons (c b : Char) (tail : List Char) :
    scanSplits (c :: b :: tail) =
      if b = '-' then
        (match matchTail tail with
         | some n => some n
         | none => scanSplits (b :: tail))
      else scanSplits (b :: tail) := rfl

lemma scanSplits_some_of_decomp : ∀ (a seg t : List Char), a ≠ [] →
    isIdSegment seg = true → t ≠ [] →
    ∃ n, scanSplits (a ++ '-' :: (seg ++ '/' :: t)) = some n := by
  intro a
  induction a with
  | nil => intro seg t h _ _; exact absurd rfl h
  | cons c a' ih =>
    intro seg t _ hseg ht
    cases a' with
    | nil =>
      obtain ⟨n, hn⟩ := matchTail_seg_some seg t hseg ht
      refine ⟨n, ?_⟩
      show scanSplits (c :: '-' :: (seg ++ '/' :: t)) = some n
      rw [scanSplits_cons_cons, if_pos rfl, hn]
    | cons b a'' =>
      obtain ⟨n, hn⟩ := ih seg t (by simp) hseg ht
      simp only [List.cons_append]
      rw [scanSplits_cons_cons]
      by_cases hb : b = '-'
      · subst hb
        rw [if_pos rfl]
        cases hmt : matchTail (a'' ++ '-' :: (seg ++ '/' :: t)) with
        | some m => exact ⟨m, rfl⟩
        | none => exact ⟨n, hn⟩
      · rw [if_neg hb]
        exact ⟨n, hn⟩

lemma scanSplits_decomp_of_some : ∀ (l : List Char) (n : Int), scanSplits l = some n →
    ∃ a seg t, l = a ++ '-' :: (seg ++ '/' :: t) ∧ a ≠ [] ∧
      isIdSegment seg = true ∧ t ≠ [] := by
  intro l
  induction l with
  | nil => intro n h; simp [scanSplits] at h
  | cons c rest ih =>
    intro n h
    cases rest with
    | nil => simp [scanSplits] at h
    | cons b tail =>
      rw [scanSplits_cons_cons] at h
      by_cases hb : b = '-'
      · subst hb
        rw [if_pos rfl] at h
        cases hmt : matchTail tail with
        | some m =>
          obtain ⟨seg, t, htl, hseg, ht⟩ := matchTail_some_decomp tail m hmt
          exact ⟨[c], seg, t, by simp [htl], by simp, hseg, ht⟩
        | none =>
          rw [hmt] at h
          obtain ⟨a, seg, t, hl, ha, hseg, ht⟩ := ih n h
          exact ⟨c :: a, seg, t, by simp [hl], by simp, hseg, ht⟩
      · rw [if_neg hb] at h
        obtain ⟨a, seg, t, hl, ha, hseg, ht⟩ := ih n h
        exact ⟨c :: a, seg, t, by simp [hl], by simp, hseg, ht⟩

lemma scanSplits_encode : ∀ (a ds t : List Char), a ≠ [] → '/' ∉ a →
    a.getLast? ≠ some '-' → ds ≠ [] → (∀ c ∈ ds, isDigitChar c = true) → t ≠ [] →
    scanSplits (a ++ '-' :: (ds ++ '/' :: t)) = some ((digitsVal ds : Int)) := by
  intro a
  induction a with
  | nil => intro ds t h _ _ _ _ _; exact absurd rfl h
  | cons c a' ih =>
    intro ds t _ hslash hlast hds hall ht
    cases a' with
    | nil =>
      show scanSplits (c :: '-' :: (ds ++ '/' :: t)) = some ((digitsVal ds : Int))
      rw [scanSplits_cons_cons, if_pos rfl, matchTail_digits ds t hds hall ht]
    | cons b a'' =>
      have hlast' : (b :: a'').getLast? ≠ some '-' := by
        rwa [List.getLast?_cons_cons] at hlast
      have hslash' : '/' ∉ b :: a'' := fun hmem => hslash (by simp [hmem])
      have ihres := ih ds t (by simp) hslash' hlast' hds hall ht
      simp only [List.cons_append]
      rw [scanSplits_cons_cons]
      by_cases hb : b = '-'
      · subst hb
        rw [if_pos rfl]
        have ha'' : a'' ≠ [] := by
          intro hnil
          subst hnil
          exact hlast' (by simp)
        have hsl'' : '/' ∉ a'' := fun hmem => hslash' (by simp [hmem])
        rw [matchTail_inner_none a'' (ds ++ '/' :: t) ha'' hsl'']
        exact ihres
      · rw [if_neg hb]
        exact ihres

/-! ### Slug lemmas -/

lemma pyCharLower_eq_slash (c : Char) : pyCharLower c = '/' → c = '/' := by
  unfold pyCharLower
  split <;> intro h
  all_goals first | exact h | exact absurd h (by decide)

lemma slash_not_mem_branchSlug (title : String) (h : '/' ∉ title.data) :
    '/' ∉ branchSlug title := by
  intro hmem
  unfold branchSlug at hmem
  rw [List.mem_map] at hmem
  obtain ⟨c1, hc1, hrep⟩ := hmem
  have hc1' : c1 = '/' := by
    by_cases hsp : c1 = ' '
    · rw [if_pos hsp] at hrep; exact absurd hrep (by decide)
    · rwa [if_neg hsp] at hrep
  subst hc1'
  rw [List.mem_map] at hc1
  obtain ⟨c0, hc0, hlow⟩ := hc1
  have hc0' : c0 = '/' := pyCharLower_eq_slash c0 hlow
  subst hc0'
  exact h hc0

lemma branchSlug_ne_nil (title : String) (h : title.data ≠ []) : branchSlug title ≠ [] := by
  unfold branchSlug
  simp [h]

lemma data_ne_nil (s : String) (h : s ≠ "") : s.data ≠ [] := by
  intro hd
  apply h
  cases s with
  | mk d => subst hd; rfl

/-! ### Sequences of add commands -/

/-- The ids that a run of n add commands on a fresh project assigns. -/
def assignedIds (n : Nat) : List Int := (List.range n).map (fun i : Nat => (i : Int) + 1)

lemma addAll_ok : ∀ (titles : List String) (p : Project),
    (∀ j : Int, p.next_id < j → dictGet p.tasks j = none) →
    ∃ p' : Project,
      addAll titles p =
        .ok (p', (List.range titles.length).map (fun i : Nat => p.next_id + 1 + (i : Int))) ∧
      p'.next_id = p.next_id + titles.length ∧
      (∀ j : Int, p'.next_id < j → dictGet p'.tasks j = none) := by
  intro titles
  induction titles with
  | nil =>
    intro p hinv
    exact ⟨p, by simp [addAll], by simp, hinv⟩
  | cons t rest ih =>
    intro p hinv
    have hget : dictGet p.tasks (p.next_id + 1) = none := hinv _ (by omega)
    have hadd : add t p = .ok
        ({ p with
           next_id := p.next_id + 1
           tasks := dictSet p.tasks (p.next_id + 1) ⟨p.next_id + 1, t, .incomplete⟩ },
         (⟨p.next_id + 1, t, .incomplete⟩ : Task)) := by
      unfold add
      simp only [hget]
    obtain ⟨p', h1, h2, h3⟩ := ih
      { p with
        next_id := p.next_id + 1
        tasks := dictSet p.tasks (p.next_id + 1) ⟨p.next_id + 1, t, .incomplete⟩ }
      (by
        intro j hj
        simp only at hj
        rw [dictGet_dictSet_ne _ _ _ _ (by omega)]
        exact hinv j (by omega))
    refine ⟨p', ?_, ?_, h3⟩
    · show addAll (t :: rest) p = _
      have hids : (p.next_id + 1) ::
            (List.range rest.length).map (fun i : Nat => p.next_id + 1 + 1 + (i : Int)) =
          (List.range (rest.length + 1)).map (fun i : Nat => p.next_id + 1 + (i : Int)) := by
        rw [List.range_succ_eq_map, List.map_cons, List.map_map, List.cons.injEq]
        refine ⟨by simp, ?_⟩
        apply List.map_congr_left
        intro i _
        simp only [Function.comp_apply]
        push_cast
        ring
      simp only [addAll, hadd, h1, List.length_cons]
      rw [← hids]
    · rw [h2]
      show p.next_id + 1 + (rest.length : Int) = p.next_id + ((rest.length + 1 : Nat) : Int)
      push_cast
      ring

lemma chain_add_map (n : Nat) : ∀ c : Int,
    List.Chain' (fun a b : Int => b = a + 1)
      ((List.range n).map (fun i : Nat => c + (i : Int))) := by
  induction n with
  | zero => intro c; simp
  | succ n ih =>
    intro c
    rw [List.range_succ_eq_map, List.map_cons, List.map_map, List.chain'_cons']
    constructor
    · intro y hy
      cases n with
      | zero => simp at hy
      | succ m =>
        rw [List.range_succ_eq_map] at hy
        simp only [List.map_cons, List.head?_cons, Option.mem_def, Option.some.injEq] at hy
        subst hy
        simp only [Function.comp_apply]
        push_cast
        ring
    · have hmaps : (List.range n).map ((fun i : Nat => c + (i : Int)) ∘ Nat.succ) =
          (List.range n).map (fun i : Nat => (c + 1) + (i : Int)) := by
        apply List.map_congr_left
        intro i _
        simp only [Function.comp_apply]
        push_cast
        ring
      rw [hmaps]
      exact ih (c + 1)

lemma assignedIds_eq_shift (n : Nat) :
    assignedIds n = (List.range n).map (fun i : Nat => (0 : Int) + 1 + (i : Int)) := by
  apply List.map_congr_left
  intro i _
  ring

lemma assignedIds_chain (n : Nat) :
    List.Chain' (fun a b : Int => b = a + 1) (assignedIds n) := by
  have h : assignedIds n = (List.range n).map (fun i : Nat => (1 : Int) + (i : Int)) := by
    apply List.map_congr_left
    intro i _
    ring
  rw [h]
  exact chain_add_map n 1

lemma assignedIds_nodup (n : Nat) : (assignedIds n).Nodup := by
  refine (List.nodup_range n).map ?_
  intro a b hab
  simp only at hab
  omega

lemma assignedIds_getLast (n : Nat) : (assignedIds n).getLast?.getD 0 = (n : Int) := by
  cases n with
  | zero => simp [assignedIds]
  | succ m =>
    unfold assignedIds
    rw [List.range_succ, List.map_append]
    simp only [List.map_cons, List.map_nil, List.getLast?_concat, Option.getD_some]
    push_cast
    ring

/-! ### Migration lemmas -/

lemma runMigrations_fresh : ∀ (migs : List Migration) (k : Nat) (doc : List (String × Json)),
    (∀ f ∈ migs, ∀ d, ∃ d', f d = .ok d') →
    ∃ doc', runMigrations (List.enumFrom k migs) (-1) doc =
        (List.range' k migs.length, .ok doc') ∧
      (migs ≠ [] → jsonGet doc' "version" = some (.int ((k : Int) + migs.length - 1))) := by
  intro migs
  induction migs with
  | nil =>
    intro k doc _
    exact ⟨doc, by simp [runMigrations], by simp⟩
  | cons f rest ih =>
    intro k doc hok
    obtain ⟨d1, hd1⟩ := hok f (by simp) doc
    obtain ⟨doc', hrun, hver⟩ := ih (k + 1) (jsonSet d1 "version" (.int k))
      (fun g hg d => hok g (by simp [hg]) d)
    refine ⟨doc', ?_, ?_⟩
    · show runMigrations ((k, f) :: List.enumFrom (k + 1) rest) (-1) doc = _
      unfold runMigrations
      rw [if_neg (by omega)]
      simp only [hd1, hrun]
      rfl
    · intro _
      cases rest with
      | nil =>
        have hdoc' : doc' = jsonSet d1 "version" (.int k) := by
          simp [runMigrations] at hrun
          exact hrun.symm
        subst hdoc'
        rw [jsonGet_jsonSet_self]
        have hval : ((k : Int) + ([f] : List Migration).length - 1) = (k : Int) := by
          simp
        rw [hval]
      | cons g gs =>
        have hv := hver (by simp)
        have hval : ((k : Int) + ((f :: g :: gs : List Migration)).length - 1) =
            (((k + 1 : Nat) : Int) + ((g :: gs : List Migration)).length - 1) := by
          simp only [List.length_cons]
          push_cast
          ring
        rw [hval]
        exact hv

/-! ### Concrete fixtures -/

/-- A legacy raw document: no version field, no next_id, no tasks. -/
def legacyFields : List (String × Json) := [("name", .str "Old"), ("project_abbv", .str "O")]

/-- The legacy document as a JSON value. -/
def legacyDoc : Json := .obj legacyFields

/-- A freshly initialized project as the spec describes init should produce. -/
def projectDemo : Project :=
  { name := "Demo", project_abbv := "DMO", next_id := 0, tasks := [], version := 0 }

/-- A project holding one task, for the unit-of-work and frame witnesses. -/
def projectW : Project :=
  { name := "Demo", project_abbv := "DMO", next_id := 1,
    tasks := [(1, ⟨1, "Write spec", .incomplete⟩)], version := 0 }

/-- The persisted file holding projectW. -/
def fsW : Option Json := some (projectJson projectW)

/-- A unit-of-work body that renames the project and finishes normally. -/
def bodyRename : Project → Except String (Project × Unit) :=
  fun p => .ok ({ p with name := "Renamed" }, ())

/-- A unit-of-work body that raises. -/
def bodyBoom : Project → Except String (Project × Unit) :=
  fun _ => .error "boom"

/-- A migration step that always raises. -/
def failingMigration : Migration := fun _ => .error "boom"

/-- A raw document without a version field for the migration witness. -/
def freshDoc : List (String × Json) := [("name", .str "Old")]

/-! ### Claim C1 -/

/-- Claim C1, counterexample: the claim states that the unit of work runs the
raw document through the schema migrator before parsing.  On the legacy
document the migrator succeeds and the migrated document parses, yet the
actual read path of project_context fails with a validation error: the read
path is not migrate-then-parse. -/
theorem C1_counterexample :
    Project.read (some legacyDoc) ≠ loadSpec (some legacyDoc) ∧
    Project.read (some legacyDoc) = .error "ValidationError" ∧
    loadSpec (some legacyDoc) =
      .ok { name := "Old", project_abbv := "O", next_id := 0, tasks := [], version := 0 } := by
  refine ⟨?_, rfl, rfl⟩
  intro h
  rw [show Project.read (some legacyDoc) = .error "ValidationError" from rfl,
      show loadSpec (some legacyDoc) =
        .ok { name := "Old", project_abbv := "O", next_id := 0, tasks := [], version := 0 }
        from rfl] at h
  exact Except.noConfusion h

/-- Claim C1, amended: the unit of work parses the persisted document
directly and never invokes the schema migrator; a legacy document with no
version field fails to load with a parse error even though every registered
migration step succeeds on it (migration runs only in the separate migrate
command). -/
theorem C1_load_parses_without_migration :
    ∀ (fields : List (String × Json)),
      jsonGet fields "version" = none →
      (∃ e, Project.read (some (.obj fields)) = .error e) ∧
      migrateRaw MIGRATIONS fields = ([0], .ok (jsonSet fields "version" (.int 0))) := by
  intro fields h
  constructor
  · refine ⟨"ValidationError", ?_⟩
    show parseProject (.obj fields) = _
    simp only [parseProject, h]
  · unfold migrateRaw
    rw [h]
    show runMigrations [(0, initial_migration)] (-1) fields = _
    unfold runMigrations
    rw [if_neg (by omega)]
    rfl

/-- Witness for C1 at the legacy document. -/
theorem C1_load_parses_without_migration_witness :
    jsonGet legacyFields "version" = none ∧
    ((∃ e, Project.read (some (.obj legacyFields)) = .error e) ∧
      migrateRaw MIGRATIONS legacyFields = ([0], .ok (jsonSet legacyFields "version" (.int 0)))) :=
  ⟨rfl, C1_load_parses_without_migration legacyFields rfl⟩

/-! ### Claim C2 -/

/-- Claim C2: the claim states that init persists a Project with next_id 0,
empty task map and the latest schema version.  The code constructs
Project(name=project_name) only, and project_abbv and version are required
fields without defaults, so pydantic raises a validation error on every
input and the file is never written: init can never succeed. -/
theorem C2_init_never_persists :
    ∀ (project_name : String) (fs : Option Json),
      init project_name fs = (fs, .error "ValidationError") := by
  intro nm fs
  rfl

/-! ### Claim C3 -/

/-- Claim C3, counterexample: the claim states that add fails on every empty
title.  On a fresh project, add with the empty title succeeds and inserts a
task whose title is empty. -/
theorem C3_counterexample :
    add "" projectDemo =
      .ok (⟨"Demo", "DMO", 1, [(1, ⟨1, "", .incomplete⟩)], 0⟩,
           (⟨1, "", .incomplete⟩ : Task)) := rfl

/-- Claim C3, amended: add performs no validation of the title.  For every
title, empty or not, when the incremented id is unoccupied it constructs the
Task with the freshly incremented id and status Incomplete and inserts it. -/
theorem C3_add_ignores_title :
    ∀ (p : Project) (title : String),
      dictGet p.tasks (p.next_id + 1) = none →
      add title p = .ok
        ({ p with
           next_id := p.next_id + 1
           tasks := dictSet p.tasks (p.next_id + 1) ⟨p.next_id + 1, title, .incomplete⟩ },
         (⟨p.next_id + 1, title, .incomplete⟩ : Task)) := by
  intro p title h
  unfold add
  simp only [h]

/-- Witness for C3 at the empty title on a fresh project. -/
theorem C3_add_ignores_title_witness :
    dictGet projectDemo.tasks (projectDemo.next_id + 1) = none ∧
    add "" projectDemo = .ok
      ({ projectDemo with
         next_id := projectDemo.next_id + 1
         tasks := dictSet projectDemo.tasks (projectDemo.next_id + 1)
           ⟨projectDemo.next_id + 1, "", .incomplete⟩ },
       (⟨projectDemo.next_id + 1, "", .incomplete⟩ : Task)) :=
  ⟨rfl, C3_add_ignores_title projectDemo "" rfl⟩

/-! ### Claim C4 -/

/-- Claim C4: from an initialized project (next_id 0, empty task map), every
sequence of add commands succeeds and assigns the ids 1, 2, ..., n: the ids
increase by exactly 1, never repeat, and afterwards next_id equals the last
assigned id, or 0 when no id was assigned.  Every prefix of the sequence is
itself such a sequence, so the last conjunct holds after each call. -/
theorem C4_add_sequence_ids :
    ∀ (titles : List String) (name abbv : String) (ver : Int),
      ∃ p' : Project,
        addAll titles
            { name := name, project_abbv := abbv, next_id := 0, tasks := [], version := ver } =
          .ok (p', assignedIds titles.length) ∧
        List.Chain' (fun a b : Int => b = a + 1) (assignedIds titles.length) ∧
        (assignedIds titles.length).Nodup ∧
        p'.next_id = (assignedIds titles.length).getLast?.getD 0 := by
  intro titles name abbv ver
  obtain ⟨p', h1, h2, h3⟩ :=
    addAll_ok titles ⟨name, abbv, 0, [], ver⟩ (fun j hj => rfl)
  refine ⟨p', ?_, assignedIds_chain _, assignedIds_nodup _, ?_⟩
  · rw [h1, assignedIds_eq_shift]
  · rw [h2, assignedIds_getLast]
    show (0 : Int) + (titles.length : Int) = (titles.length : Int)
    ring

/-! ### Claim C5 -/

/-- Claim C5, counterexample: the claim quantifies over every abbreviation.
For the abbreviation containing a slash, the positive id 7 and the valid
title t, decoding the encoded branch name yields 3, not 7: the lazy
abbreviation group matches the shorter prefix A first. -/
theorem C5_counterexample :
    decode (encode "A-3/B" 7 "t") = .ok 3 ∧
    ¬ decode (encode "A-3/B" 7 "t") = .ok 7 ∧
    (0 : Int) < 7 ∧ ("t" : String) ≠ "" ∧ '/' ∉ ("t" : String).data := by
  refine ⟨rfl, ?_, by decide, by decide, by decide⟩
  intro h
  rw [show decode (encode "A-3/B" 7 "t") = .ok 3 from rfl] at h
  injection h with h'
  exact absurd h' (by decide)

/-- Claim C5, amended: when additionally the abbreviation is nonempty,
contains no slash and does not end in a hyphen, decoding the encoded branch
name recovers the id exactly, for every positive id and every nonempty title
containing no slash. -/
theorem C5_roundtrip_restricted :
    ∀ (abbv title : String) (id : Int),
      0 < id → abbv ≠ "" → '/' ∉ abbv.data → abbv.data.getLast? ≠ some '-' →
      title ≠ "" → '/' ∉ title.data →
      decode (encode abbv id title) = .ok id := by
  intro abbv title id hid habne habsl hablast htne htsl
  have hds : intToDecimalChars id = natDigits id.natAbs := by
    unfold intToDecimalChars
    rw [if_neg (by omega)]
  have hscan : scanSplits (encodeChars abbv.data id (branchSlug title)) =
      some ((digitsVal (natDigits id.natAbs) : Int)) := by
    unfold encodeChars
    rw [hds]
    exact scanSplits_encode abbv.data (natDigits id.natAbs) (branchSlug title)
      (data_ne_nil abbv habne) habsl hablast (natDigits_ne_nil _)
      (natDigits_all_digit _) (branchSlug_ne_nil title (data_ne_nil title htne))
  have hdec : decode (encode abbv id title) =
      (match scanSplits (encodeChars abbv.data id (branchSlug title)) with
       | some n => (Except.ok n : Except String Int)
       | none => .error "BranchFormatError") := rfl
  rw [hdec, hscan, digitsVal_natDigits, Int.natAbs_of_nonneg (le_of_lt hid)]

/-- Witness for C5 at the scenario of the spec: DMO, id 1, title Write spec. -/
theorem C5_roundtrip_restricted_witness :
    (0 : Int) < 1 ∧ ("DMO" : String) ≠ "" ∧ '/' ∉ ("DMO" : String).data ∧
    ("DMO" : String).data.getLast? ≠ some '-' ∧ ("Write spec" : String) ≠ "" ∧
    '/' ∉ ("Write spec" : String).data ∧
    decode (encode "DMO" 1 "Write spec") = .ok 1 :=
  ⟨by decide, by decide, by decide, by decide, by decide, by decide,
   C5_roundtrip_restricted "DMO" "Write spec" 1 (by decide) (by decide) (by decide)
     (by decide) (by decide) (by decide)⟩

/-! ### Claim C6 -/

/-- Claim C6: running migrate on a raw document with no version field
(treated as version -1) applies every registered step exactly once in
ascending index order (the trace is the full index range, in order) and
leaves the document with version N-1, where N is the number of registered
steps, provided no step raises (the registered MIGRATIONS never raise). -/
theorem C6_migrate_fresh_document :
    ∀ (migrations : List Migration) (doc : List (String × Json)),
      jsonGet doc "version" = none →
      migrations ≠ [] →
      (∀ f ∈ migrations, ∀ d, ∃ d', f d = .ok d') →
      ∃ doc', migrateRaw migrations doc = (List.range migrations.length, .ok doc') ∧
        jsonGet doc' "version" = some (.int ((migrations.length : Int) - 1)) := by
  intro migs doc hver hne hok
  obtain ⟨doc', hrun, hv⟩ := runMigrations_fresh migs 0 doc hok
  refine ⟨doc', ?_, ?_⟩
  · unfold migrateRaw
    rw [hver]
    show runMigrations (List.enumFrom 0 migs) (-1) doc = _
    rw [hrun, List.range_eq_range']
  · simpa using hv hne

/-- Witness for C6: the registered MIGRATIONS on a document with only a name
field. -/
theorem C6_migrate_fresh_document_witness :
    jsonGet freshDoc "version" = none ∧ MIGRATIONS ≠ [] ∧
    (∀ f ∈ MIGRATIONS, ∀ d, ∃ d', f d = .ok d') ∧
    ∃ doc', migrateRaw MIGRATIONS freshDoc = (List.range MIGRATIONS.length, .ok doc') ∧
      jsonGet doc' "version" = some (.int ((MIGRATIONS.length : Int) - 1)) := by
  have hok : ∀ f ∈ MIGRATIONS, ∀ d, ∃ d', f d = .ok d' := by
    intro f hf d
    rw [MIGRATIONS, List.mem_singleton] at hf
    subst hf
    exact ⟨d, rfl⟩
  exact ⟨rfl, by simp [MIGRATIONS], hok,
    C6_migrate_fresh_document MIGRATIONS freshDoc rfl (by simp [MIGRATIONS]) hok⟩

/-! ### Claim C7 -/

/-- Claim C7: when a migration step raises, the loop stops at once (no later
step runs and nothing is traced as applied) and the write at the end of
migrate_project is never reached, so the persisted document is completely
unchanged: its version field is never advanced past the last fully completed
step and a partially migrated document is never persisted. -/
theorem C7_failed_migration_not_persisted :
    (∀ (migrations : List Migration) (fs : Option Json) (e : String),
        (migrate_project migrations fs).2 = some e →
        (migrate_project migrations fs).1 = fs) ∧
    (∀ (idx : Nat) (f : Migration) (rest : List (Nat × Migration)) (version : Int)
        (doc : List (String × Json)) (e : String),
        ¬ ((idx : Int) ≤ version) → f doc = .error e →
        runMigrations ((idx, f) :: rest) version doc = ([], .error e)) := by
  constructor
  · intro migs fs e h
    cases fs with
    | none => rfl
    | some j =>
      cases j with
      | obj doc =>
        cases hm : migrateRaw migs doc with
        | mk trace out =>
          cases out with
          | ok d =>
            rw [show (migrate_project migs (some (.obj doc))).2 =
              (match migrateRaw migs doc with
               | (_, .ok doc1) => (some (Json.obj doc1), (none : Option String))
               | (_, .error e') => (some (.obj doc), some e')).2 from rfl, hm] at h
            simp at h
          | error e' =>
            show (match migrateRaw migs doc with
              | (_, .ok doc1) => (some (Json.obj doc1), (none : Option String))
              | (_, .error e'') => (some (.obj doc), some e'')).1 = _
            rw [hm]
      | null => rfl
      | bool b => rfl
      | int n => rfl
      | str s => rfl
  · intro idx f rest version doc e hskip herr
    unfold runMigrations
    rw [if_neg hskip, herr]

/-- Witness for C7: a single always-raising step on a concrete document. -/
theorem C7_failed_migration_not_persisted_witness :
    (migrate_project [failingMigration] (some (.obj [("name", .str "x")]))).2 = some "boom" ∧
    (migrate_project [failingMigration] (some (.obj [("name", .str "x")]))).1 =
      some (.obj [("name", .str "x")]) ∧
    ¬ ((0 : Nat) : Int) ≤ (-1 : Int) ∧ failingMigration [] = .error "boom" ∧
    runMigrations [(0, failingMigration)] (-1) [] = ([], .error "boom") :=
  ⟨rfl,
   C7_failed_migration_not_persisted.1 [failingMigration] (some (.obj [("name", .str "x")]))
     "boom" rfl,
   by decide, rfl,
   C7_failed_migration_not_persisted.2 0 failingMigration [] (-1) [] "boom" (by decide) rfl⟩

/-! ### Claim C8 -/

/-- Claim C8: the scoped unit of work writes exactly when its body completes
normally and read-only is unset: on normal completion with read-only false
the file afterwards holds the full serialized project the body produced, on
normal completion with read-only true the file is unchanged, and when the
body raises no write occurs, the file is unchanged and the in-memory
mutations are discarded. -/
theorem C8_unit_of_work_write_discipline :
    ∀ {α : Type} (read_only : Bool) (body : Project → Except String (Project × α))
      (fs : Option Json) (p : Project),
      Project.read fs = .ok p →
      (∀ p1 a, body p = .ok (p1, a) →
        project_context read_only body fs =
          (if read_only then fs else some (projectJson p1), .ok a)) ∧
      (∀ e, body p = .error e →
        project_context read_only body fs = (fs, .error e)) := by
  intro α ro body fs p hread
  constructor
  · intro p1 a hbody
    simp only [project_context, hread, hbody]
    rfl
  · intro e hbody
    simp only [project_context, hread, hbody]

/-- Witness for C8: a renaming body is persisted when read-only is false; a
raising body leaves the file unchanged. -/
theorem C8_unit_of_work_write_discipline_witness :
    Project.read fsW = .ok projectW ∧
    project_context false bodyRename fsW =
      (some (projectJson { projectW with name := "Renamed" }), .ok ()) ∧
    project_context false bodyBoom fsW = (fsW, .error "boom") := by
  have hread : Project.read fsW = .ok projectW := rfl
  refine ⟨hread, ?_, ?_⟩
  · exact (C8_unit_of_work_write_discipline false bodyRename fsW projectW hread).1 _ () rfl
  · exact (C8_unit_of_work_write_discipline false bodyBoom fsW projectW hread).2 "boom" rfl

/-! ### Claim C9 -/

/-- Claim C9: decode fails with BranchFormatError on exactly the branch
names that do not match the pattern (nonempty abbreviation, hyphen, an id
segment as the d format field accepts it: optional sign, then a decimal run
or a base-prefixed 0x/0b/0o run, slash, nonempty title); on every matching
branch name it succeeds and extracts an integer id. -/
theorem C9_decode_pattern_complete :
    ∀ s : String,
      (matchesBranchPattern s → ∃ n, decode s = .ok n) ∧
      (¬ matchesBranchPattern s → decode s = .error "BranchFormatError") := by
  intro s
  constructor
  · rintro ⟨a, seg, t, hdecomp, ha, hseg, ht⟩
    obtain ⟨n, hn⟩ := scanSplits_some_of_decomp a seg t ha hseg ht
    refine ⟨n, ?_⟩
    unfold decode
    rw [hdecomp, hn]
  · intro hnot
    unfold decode
    cases hscan : scanSplits s.data with
    | none => rfl
    | some n =>
      obtain ⟨a, seg, t, hdecomp, ha, hseg, ht⟩ := scanSplits_decomp_of_some s.data n hscan
      exact absurd ⟨a, seg, t, hdecomp, ha, hseg, ht⟩ hnot

/-- Witness for C9: a decimal branch name decodes; a hexadecimal branch
name matches the pattern and decodes to its base-16 value; a branch name
with no separator fails with BranchFormatError. -/
theorem C9_decode_pattern_complete_witness :
    matchesBranchPattern "DMO-1/write-spec" ∧
    (∃ n, decode "DMO-1/write-spec" = .ok n) ∧
    matchesBranchPattern "DMO-0x1f/title" ∧
    (∃ n, decode "DMO-0x1f/title" = .ok n) ∧
    decode "DMO-0x1f/title" = .ok 31 ∧
    ¬ matchesBranchPattern "A123" ∧
    decode "A123" = .error "BranchFormatError" := by
  have hm : matchesBranchPattern "DMO-1/write-spec" := by
    refine ⟨['D', 'M', 'O'], ['1'], ['w', 'r', 'i', 't', 'e', '-', 's', 'p', 'e', 'c'],
      rfl, by decide, by decide, by decide⟩
  have hmx : matchesBranchPattern "DMO-0x1f/title" := by
    refine ⟨['D', 'M', 'O'], ['0', 'x', '1', 'f'], ['t', 'i', 't', 'l', 'e'],
      rfl, by decide, by decide, by decide⟩
  have hnm : ¬ matchesBranchPattern "A123" := by
    rintro ⟨a, seg, t, hdecomp, -, -, -⟩
    have hmem : '-' ∈ ("A123" : String).data := by
      rw [hdecomp]
      simp
    exact absurd hmem (by decide)
  exact ⟨hm, (C9_decode_pattern_complete "DMO-1/write-spec").1 hm,
    hmx, (C9_decode_pattern_complete "DMO-0x1f/title").1 hmx, rfl, hnm,
    (C9_decode_pattern_complete "A123").2 hnm⟩

/-! ### Claim C10 -/

/-- Claim C10: for every task id present in the map, update_task_status
changes only the status field of that task: its id and title, every other
entry of the map, and the name, project_abbv, next_id and version fields of
the project are unchanged. -/
theorem C10_update_status_frame :
    ∀ (p : Project) (task_id : Int) (s : TaskStatus) (t : Task),
      dictGet p.tasks task_id = some t →
      ∃ p' : Project,
        update_task_status p task_id s = .ok (p', ⟨t.id, t.title, s⟩) ∧
        p'.name = p.name ∧ p'.project_abbv = p.project_abbv ∧
        p'.next_id = p.next_id ∧ p'.version = p.version ∧
        dictGet p'.tasks task_id = some ⟨t.id, t.title, s⟩ ∧
        (∀ j : Int, j ≠ task_id → dictGet p'.tasks j = dictGet p.tasks j) := by
  intro p tid s t hget
  refine ⟨{ p with tasks := dictSet p.tasks tid ⟨t.id, t.title, s⟩ },
    ?_, rfl, rfl, rfl, rfl, ?_, ?_⟩
  · unfold update_task_status get_task
    rw [hget]
  · exact dictGet_dictSet_self p.tasks tid ⟨t.id, t.title, s⟩
  · intro j hj
    exact dictGet_dictSet_ne p.tasks tid j _ hj

/-- Witness for C10: starting a task on the one-task project. -/
theorem C10_update_status_frame_witness :
    dictGet projectW.tasks 1 = some ⟨1, "Write spec", .incomplete⟩ ∧
    ∃ p' : Project,
      update_task_status projectW 1 .started = .ok (p', ⟨1, "Write spec", .started⟩) ∧
      p'.name = projectW.name ∧ p'.project_abbv = projectW.project_abbv ∧
      p'.next_id = projectW.next_id ∧ p'.version = projectW.version ∧
      dictGet p'.tasks 1 = some ⟨1, "Write spec", .started⟩ ∧
      (∀ j : Int, j ≠ 1 → dictGet p'.tasks j = dictGet projectW.tasks j) :=
  ⟨rfl, C10_update_status_frame projectW 1 .started ⟨1, "Write spec", .incomplete⟩ rfl⟩

end TaskApp
